import Mathlib

/-!
# psql-versioning: the version strategy over the database comment

A shallow embedding of `psql-versioning.go`: the two methods `Version` and
`SetVersion` of `strategy`, over a model of the parts of `database/sql`,
`strconv` and `fmt` they call.

Modelling conventions

* Go's `int` is 64 bits wide; integers are `Int`, and the range check of
  `strconv.ParseInt(s, 10, 64)` is explicit.
* A Go result `(int, error)` is a pair `Int × Option Error`, `none` being `nil`.
* Both queries select a single column, so a row is one driver value.  The
  column `description` has type `text`; a driver value is a text or `NULL`.
* A handle `DB` carries the driver, the catalog of the connected database (its
  name and its comment), the driver's own session state and the log of the
  statements issued through the handle.  A query reads the catalog and cannot
  change it; a command may.
* `rows.Close()` is not a statement and is taken to succeed; iteration over a
  result set does not fail midway.
* The server `pg` is a cluster: the connected database and the other databases,
  each with its name and its single comment.  It reads a `COMMENT ON DATABASE`
  command as PostgreSQL does an unquoted or quoted name, and applies it to the
  database it names.
-/

namespace PsqlVersioning

/-! ## Errors, values, statements -/

/-- The two causes of a `strconv.NumError`: `ErrSyntax` and `ErrRange`. -/
inductive NumError where
  | invalidText
  | outOfRange
  deriving DecidableEq

/-- A driver value of a text column: `NULL` or a text. -/
inductive Value where
  | null
  | text (s : String)
  deriving DecidableEq

/-- Errors seen by the strategy: an error reported by the driver (connectivity,
permissions, SQL errors), `sql.ErrNoRows`, and the conversion error of
`Rows.Scan` with the offending source value and its `strconv` cause, if any. -/
inductive Error where
  | driver (msg : String)
  | noRows
  | scan (src : Value) (cause : Option NumError)
  deriving DecidableEq

/-- A statement issued on a connection: a query (`db.Query`, `db.QueryRow`) or
a command (`db.Exec`), with its text. -/
inductive Stmt where
  | query (text : String)
  | exec (text : String)
  deriving DecidableEq

/-- A result set of single-column rows, in order. -/
abbrev Rows := List Value

/-! ## strconv -/

/-- The largest `uint64`. -/
def maxUint64 : Nat := 2 ^ 64 - 1

/-- The loop of `strconv.ParseUint(s, 10, 64)` over the characters of `s`, with
the value read so far.  A character that is not an ASCII digit is a syntax
error (a letter is a digit value of at least 10, refused for base 10, and the
bytes of a character outside ASCII are neither digits nor letters); the two
overflow checks return `maxVal` and a range error as soon as they fire, before
the rest of the text is looked at. -/
def parseUintLoop : List Char → Nat → Nat × Option NumError
  | [], n => (n, none)
  | c :: cs, n =>
    if '0' ≤ c ∧ c ≤ '9' then
      if n ≥ maxUint64 / 10 + 1 then (maxUint64, some NumError.outOfRange)
      else
        let n10 := (n * 10) % 2 ^ 64
        let n1 := (n10 + (c.toNat - '0'.toNat)) % 2 ^ 64
        if n1 < n10 ∨ n1 > maxUint64 then (maxUint64, some NumError.outOfRange)
        else parseUintLoop cs n1
    else (0, some NumError.invalidText)

/-- The function `strconv.ParseUint(s, 10, 64)`: the empty text is a syntax error. -/
def ParseUint (s : List Char) : Nat × Option NumError :=
  match s with
  | [] => (0, some NumError.invalidText)
  | _ => parseUintLoop s 0

/-- The function `strconv.ParseInt(s, 10, 64)`: an optional sign, then
`ParseUint`, then the range check against `1 << 63`. -/
def ParseInt (s : String) : Int × Option NumError :=
  match s.data with
  | [] => (0, some NumError.invalidText)
  | c :: cs =>
    let neg := c = '-'
    let body := if c = '+' ∨ c = '-' then cs else c :: cs
    match ParseUint body with
    | (_, some NumError.invalidText) => (0, some NumError.invalidText)
    | (un, _) =>
      if ¬ neg ∧ un ≥ 2 ^ 63 then ((2 : Int) ^ 63 - 1, some NumError.outOfRange)
      else if neg ∧ un > 2 ^ 63 then (-(2 : Int) ^ 63, some NumError.outOfRange)
      else if neg then (-(un : Int), none)
      else ((un : Int), none)

/-- The function `strconv.FormatInt(v, 10)`, which the verb `%d` of `fmt` prints:
the decimal digits, after a minus sign for a negative number. -/
def FormatInt (v : Int) : String :=
  if v < 0 then "-" ++ Nat.repr v.natAbs else Nat.repr v.toNat

/-- The spec's notion of the text of an integer: an optional sign followed by
one or more decimal digits. -/
def isDecimalInteger (s : String) : Bool :=
  match s.data with
  | [] => false
  | c :: cs =>
    if c = '+' ∨ c = '-' then !cs.isEmpty && cs.all Char.isDigit
    else (c :: cs).all Char.isDigit

/-! ## database/sql -/

/-- The catalog of the connected database: its name and its comment (the row
of `pg_shdescription` for the database, when there is one). -/
structure Catalog where
  datname : String
  comment : Option String
  deriving DecidableEq

/-- A driver over session states `σ`: how a query and a command are answered.
A query reads the catalog; a command may replace it. -/
structure Driver (σ : Type) where
  query : String → Catalog → σ → Except Error Rows × σ
  exec : String → Catalog → σ → Option Error × Catalog × σ

/-- The handle `*sql.DB` with what lies behind it: the driver, the catalog, the
session state and the statements issued so far, oldest first. -/
structure DB (σ : Type) where
  driver : Driver σ
  catalog : Catalog
  session : σ
  log : List Stmt

/-- The method `db.Query(q)`: one query statement. -/
def DB.Query {σ : Type} (db : DB σ) (q : String) : Except Error Rows × DB σ :=
  let r := db.driver.query q db.catalog db.session
  (r.1, { db with session := r.2, log := db.log ++ [Stmt.query q] })

/-- The method `db.Exec(cmd)`: one command statement; the result value is
dropped by the caller, only the error is kept. -/
def DB.Exec {σ : Type} (db : DB σ) (cmd : String) : Option Error × DB σ :=
  let r := db.driver.exec cmd db.catalog db.session
  (r.1, { db with catalog := r.2.1, session := r.2.2, log := db.log ++ [Stmt.exec cmd] })

/-- The value `*sql.Row` of `db.QueryRow`: the deferred error of the query, or
its result set. -/
structure Row where
  err : Option Error
  rows : Rows

/-- The method `db.QueryRow(q)`: runs `db.Query(q)` and defers its error. -/
def DB.QueryRow {σ : Type} (db : DB σ) (q : String) : Row × DB σ :=
  match db.Query q with
  | (Except.error e, db1) => ({ err := some e, rows := [] }, db1)
  | (Except.ok rows, db1) => ({ err := none, rows := rows }, db1)

/-- The call `rows.Scan(&version)` with `version int`: `convertAssign` refuses
`NULL` and otherwise converts the text with `strconv.ParseInt(s, 10, 64)`. -/
def scanInt (src : Value) : Except Error Int :=
  match src with
  | Value.null => Except.error (Error.scan Value.null none)
  | Value.text s =>
    match ParseInt s with
    | (i, none) => Except.ok i
    | (_, some cause) => Except.error (Error.scan (Value.text s) (some cause))

/-- The call `rows.Scan(&databaseName)` with `databaseName string`:
`convertAssign` refuses `NULL` and copies a text. -/
def scanString (src : Value) : Except Error String :=
  match src with
  | Value.null => Except.error (Error.scan Value.null none)
  | Value.text s => Except.ok s

/-- The method `Row.Scan(&databaseName)`: the deferred error, `sql.ErrNoRows`
when the result set is empty, otherwise the scan of the first row. -/
def Row.Scan (r : Row) : Except Error String :=
  match r.err with
  | some e => Except.error e
  | none =>
    match r.rows with
    | [] => Except.error Error.noRows
    | v :: _ => scanString v

/-! ## The strategy -/

/-- The text of the version-lookup query. -/
def queryVersion : String :=
  "SELECT description FROM pg_shdescription JOIN pg_database ON objoid = pg_database.oid WHERE datname = current_database()"

/-- The text of the current-database-name query. -/
def queryDb : String := "SELECT current_database()"

/-- The call `fmt.Sprintf("COMMENT ON DATABASE %s IS '%d'", databaseName, version)`. -/
def Sprintf (databaseName : String) (version : Int) : String :=
  "COMMENT ON DATABASE " ++ databaseName ++ " IS '" ++ FormatInt version ++ "'"

/-- The method `strategy.Version`: the result `(version, err)` and the handle
after the call. -/
def Version {σ : Type} (db : DB σ) : (Int × Option Error) × DB σ :=
  match db.Query queryVersion with
  | (Except.error err, db1) => ((-1, some err), db1)
  | (Except.ok rows, db1) =>
    match rows with
    | row :: _ =>
      match scanInt row with
      | Except.error err => ((-1, some err), db1)
      | Except.ok version => ((version, none), db1)
    | [] => ((0, none), db1)

/-- The method `strategy.SetVersion`: the returned error and the handle after
the call. -/
def SetVersion {σ : Type} (db : DB σ) (version : Int) : Option Error × DB σ :=
  match db.QueryRow queryDb with
  | (row, db1) =>
    match row.Scan with
    | Except.error err => (some err, db1)
    | Except.ok databaseName =>
      match db1.Exec (Sprintf databaseName version) with
      | (some err, db2) => (some err, db2)
      | (none, db2) => (none, db2)

/-! ## Two drivers -/

/-- The rest of `l` after the leading characters `p`, when `l` starts with them. -/
def afterLeading : List Char → List Char → Option (List Char)
  | [], l => some l
  | _ :: _, [] => none
  | a :: p, b :: l => if a = b then afterLeading p l else none

/-- The single quote character. -/
def quoteChar : Char := Char.ofNat 39

/-- The server's answer to a query: the name of the database for `queryDb`,
the comment row, if any, for `queryVersion`. -/
def pgQuery (q : String) (cat : Catalog) : Except Error Rows :=
  if q = queryDb then Except.ok [Value.text cat.datname]
  else if q = queryVersion then
    match cat.comment with
    | none => Except.ok []
    | some c => Except.ok [Value.text c]
  else Except.error (Error.driver "query not supported")

/-- The double quote character. -/
def dquoteChar : Char := Char.ofNat 34

/-- The first character of an unquoted SQL name: a letter or an underscore. -/
def isNameStart (c : Char) : Bool := c.isAlpha || c = '_'

/-- A further character of an unquoted SQL name: a letter, a digit, an
underscore or a dollar sign. -/
def isNamePart (c : Char) : Bool := c.isAlphanum || c = '_' || c = '$'

/-- The server reads a database name at the front of a text: a name between
double quotes is taken as it is, an unquoted name is the longest run of name
characters, folded to lower case.  The result is the name and the rest. -/
def readName : List Char → Option (List Char × List Char)
  | [] => none
  | c :: cs =>
    if c = dquoteChar then
      match cs.dropWhile (fun x => x != dquoteChar) with
      | [] => none
      | _ :: rest => some (cs.takeWhile (fun x => x != dquoteChar), rest)
    else if isNameStart c then
      some (((c :: cs).takeWhile isNamePart).map Char.toLower, (c :: cs).dropWhile isNamePart)
    else none

/-- The server reads `<name> IS '<text>'`, where the text ends at the first
single quote; the statement may be followed by `; --` and a comment.  The
result is the name and the text. -/
def readComment (l : List Char) : Option (String × String) :=
  match readName l with
  | none => none
  | some (name, rest) =>
    match afterLeading " IS '".data rest with
    | none => none
    | some lit =>
      match lit.dropWhile (fun x => x != quoteChar) with
      | [] => none
      | _ :: tail =>
        if tail = [] ∨ (afterLeading "; --".data tail).isSome then
          some (String.mk name, String.mk (lit.takeWhile (fun x => x != quoteChar)))
        else none

/-- The database the server reads a `COMMENT ON DATABASE` command as addressed to. -/
def commandTarget (cmd : String) : Option String :=
  match afterLeading "COMMENT ON DATABASE ".data cmd.data with
  | none => none
  | some l => (readComment l).map Prod.fst

/-- The comment a text stands for: the empty text removes the comment. -/
def commentOf (text : String) : Option String :=
  if text = "" then none else some text

/-- The server's answer to a command, on a cluster made of the connected
database and the others.  The server may refuse a command for reasons of its
own (a reserved word, ownership), which `permits` decides.  A permitted
`COMMENT ON DATABASE` command is read with `readComment` and replaces the
comment of the database it names, the connected one or another one; it fails
when it cannot be read or names no database.  Any other permitted command
succeeds and touches no comment.  A failed command changes nothing. -/
def pgExec (permits : String → Catalog → Bool) (cmd : String) (cat : Catalog)
    (others : List Catalog) : Option Error × Catalog × List Catalog :=
  if permits cmd cat then
    match afterLeading "COMMENT ON DATABASE ".data cmd.data with
    | none => (none, cat, others)
    | some l =>
      match readComment l with
      | none => (some (Error.driver "syntax error"), cat, others)
      | some (name, text) =>
        if name = cat.datname then
          (none, { datname := cat.datname, comment := commentOf text }, others)
        else if others.any (fun o => o.datname = name) then
          (none, cat, others.map (fun o =>
            if o.datname = name then { datname := o.datname, comment := commentOf text } else o))
        else (some (Error.driver "database does not exist"), cat, others)
  else (some (Error.driver "command refused"), cat, others)

/-- A server with the connected database, which holds its name and its single
comment, and the other databases of the cluster as the session state. -/
def pg (permits : String → Catalog → Bool) : Driver (List Catalog) where
  query q cat others := (pgQuery q cat, others)
  exec cmd cat others := pgExec permits cmd cat others

/-- A scripted answer: rows for a query, success for a command, or a failure. -/
inductive Reply where
  | rows (r : Rows)
  | done
  | fail (e : Error)

/-- A driver that answers each statement with the next scripted reply, as the
mock connection of the tests does; no command changes the catalog. -/
def scripted : Driver (List Reply) where
  query _ _ s :=
    match s with
    | Reply.rows r :: rest => (Except.ok r, rest)
    | Reply.fail e :: rest => (Except.error e, rest)
    | Reply.done :: rest => (Except.error (Error.driver "unexpected query"), rest)
    | [] => (Except.error (Error.driver "unexpected query"), [])
  exec _ cat s :=
    match s with
    | Reply.done :: rest => (none, cat, rest)
    | Reply.fail e :: rest => (some e, cat, rest)
    | Reply.rows _ :: rest => (some (Error.driver "unexpected command"), cat, rest)
    | [] => (some (Error.driver "unexpected command"), cat, [])

/-- A handle on the scripted driver, for the database `mock_db` of the tests. -/
def mockDB (script : List Reply) : DB (List Reply) :=
  { driver := scripted, catalog := { datname := "mock_db", comment := none },
    session := script, log := [] }

/-- A character of a plain name: a lower-case letter, a digit, an underscore or
a dollar sign. -/
def plainChar (x : Char) : Bool := x.isLower || x.isDigit || x = '_' || x = '$'

/-- A plain name: a lower-case letter or an underscore, followed by characters
of a plain name. -/
def isPlainName (d : String) : Bool :=
  match d.data with
  | [] => false
  | c :: cs => (c.isLower || c = '_') && cs.all plainChar

/-- A server that permits every command. -/
def permitsAll (_ : String) (_ : Catalog) : Bool := true

/-- A handle on the server `pg` that permits every command, connected to the
database `MyDB` with the comment `3`, in a cluster that also has `mydb`. -/
def foldedDB : DB (List Catalog) :=
  { driver := pg permitsAll, catalog := { datname := "MyDB", comment := some "3" },
    session := [{ datname := "mydb", comment := none }], log := [] }

/-! ## Decimal texts: printing and reading back -/

/-- The digit character of a value below ten is an ASCII digit with that value. -/
theorem digitChar_spec (m : Nat) (hm : m < 10) :
    '0' ≤ Nat.digitChar m ∧ Nat.digitChar m ≤ '9' ∧
      (Nat.digitChar m).toNat - '0'.toNat = m := by
  interval_cases m <;> decide

/-- The accumulator of `Nat.toDigitsCore` is a suffix of its result. -/
theorem toDigitsCore_acc (fuel : Nat) : ∀ (n : Nat) (acc : List Char),
    Nat.toDigitsCore 10 fuel n acc = Nat.toDigitsCore 10 fuel n [] ++ acc := by
  induction fuel with
  | zero => intro n acc; simp [Nat.toDigitsCore]
  | succ fuel ih =>
    intro n acc
    simp only [Nat.toDigitsCore]
    by_cases h : n / 10 = 0
    · simp [h]
    · simp only [h, if_false]
      rw [ih (n / 10) (Nat.digitChar (n % 10) :: acc), ih (n / 10) [Nat.digitChar (n % 10)]]
      simp

/-- One more step of the printer: the digits of `n / 10`, then the last digit. -/
theorem toDigitsCore_step (fuel n : Nat) (h : n / 10 ≠ 0) :
    Nat.toDigitsCore 10 (fuel + 1) n [] =
      Nat.toDigitsCore 10 fuel (n / 10) [] ++ [Nat.digitChar (n % 10)] := by
  simp only [Nat.toDigitsCore, h, if_false]
  exact toDigitsCore_acc fuel (n / 10) [Nat.digitChar (n % 10)]

/-- The loop of `ParseUint` over a concatenation runs over the first part and,
unless that failed, goes on over the second. -/
theorem parseUintLoop_append (ds rest : List Char) : ∀ n : Nat,
    parseUintLoop (ds ++ rest) n =
      if (parseUintLoop ds n).2 = none then parseUintLoop rest (parseUintLoop ds n).1
      else parseUintLoop ds n := by
  induction ds with
  | nil => intro n; simp [parseUintLoop]
  | cons c cs ih =>
    intro n
    simp only [List.cons_append, parseUintLoop]
    split_ifs <;> simp_all

/-- Reading one digit character after the value `n`. -/
theorem parseUintLoop_digit (m n : Nat) (hm : m < 10) (hn : n * 10 + m < 2 ^ 64) :
    parseUintLoop [Nat.digitChar m] n = (n * 10 + m, none) := by
  obtain ⟨h0, h9, hv⟩ := digitChar_spec m hm
  simp only [parseUintLoop, h0, h9, and_self, if_true, hv, maxUint64]
  have h1 : (n * 10) % 2 ^ 64 = n * 10 := Nat.mod_eq_of_lt (by omega)
  have h2 : (n * 10 + m) % 2 ^ 64 = n * 10 + m := Nat.mod_eq_of_lt hn
  rw [h1, h2]
  have h3 : ¬ (n ≥ (2 ^ 64 - 1) / 10 + 1) := by omega
  have h4 : ¬ (n * 10 + m < n * 10 ∨ n * 10 + m > 2 ^ 64 - 1) := by omega
  simp only [h3, h4, if_false]

/-- Reading back the printed digits of a `uint64` gives the number. -/
theorem parseUintLoop_toDigitsCore (fuel : Nat) : ∀ n : Nat, n < fuel → n < 2 ^ 64 →
    parseUintLoop (Nat.toDigitsCore 10 fuel n []) 0 = (n, none) := by
  induction fuel with
  | zero => intro n h; omega
  | succ fuel ih =>
    intro n hf hn
    by_cases h : n / 10 = 0
    · have hlt : n < 10 := by omega
      have hmod : n % 10 = n := Nat.mod_eq_of_lt hlt
      simp only [Nat.toDigitsCore, h, if_true, hmod]
      have := parseUintLoop_digit n 0 hlt (by omega)
      simpa using this
    · rw [toDigitsCore_step fuel n h, parseUintLoop_append, ih (n / 10) (by omega) (by omega)]
      simp only [if_true]
      rw [parseUintLoop_digit (n % 10) (n / 10) (Nat.mod_lt _ (by omega)) (by omega)]
      congr 1
      omega

/-- Every printed character is an ASCII digit. -/
theorem toDigitsCore_digits (fuel : Nat) : ∀ (n : Nat) (c : Char),
    c ∈ Nat.toDigitsCore 10 fuel n [] → '0' ≤ c ∧ c ≤ '9' := by
  induction fuel with
  | zero => intro n c hc; simp [Nat.toDigitsCore] at hc
  | succ fuel ih =>
    intro n c hc
    have hd := digitChar_spec (n % 10) (Nat.mod_lt _ (by omega))
    by_cases h : n / 10 = 0
    · simp only [Nat.toDigitsCore, h, if_true, List.mem_singleton] at hc
      subst hc
      exact ⟨hd.1, hd.2.1⟩
    · rw [toDigitsCore_step fuel n h, List.mem_append, List.mem_singleton] at hc
      rcases hc with hc | hc
      · exact ih (n / 10) c hc
      · subst hc
        exact ⟨hd.1, hd.2.1⟩

/-- The printer writes at least one digit. -/
theorem toDigits_ne_nil (n : Nat) : Nat.toDigits 10 n ≠ [] := by
  unfold Nat.toDigits
  by_cases h : n / 10 = 0
  · simp [Nat.toDigitsCore, h]
  · rw [toDigitsCore_step n n h]
    simp

/-- The characters of the decimal text of an integer. -/
theorem FormatInt_data (v : Int) :
    (FormatInt v).data =
      if v < 0 then '-' :: Nat.toDigits 10 v.natAbs else Nat.toDigits 10 v.toNat := by
  unfold FormatInt
  split_ifs <;> simp [Nat.repr, List.asString]

/-- Reading the printed digits of a `uint64` with `ParseUint` gives the number. -/
theorem ParseUint_toDigits (n : Nat) (hn : n < 2 ^ 64) :
    ParseUint (Nat.toDigits 10 n) = (n, none) := by
  have hne := toDigits_ne_nil n
  have hloop := parseUintLoop_toDigitsCore (n + 1) n (by omega) hn
  unfold ParseUint
  split
  · contradiction
  · exact hloop

/-- The first printed digit is not a sign. -/
theorem toDigits_head (n : Nat) :
    ∃ c cs, Nat.toDigits 10 n = c :: cs ∧ c ≠ '+' ∧ c ≠ '-' := by
  have hne := toDigits_ne_nil n
  obtain ⟨c, cs, hcs⟩ := List.exists_cons_of_ne_nil hne
  refine ⟨c, cs, hcs, ?_, ?_⟩
  · intro hc
    have hmem : c ∈ Nat.toDigitsCore 10 (n + 1) n [] := by
      have : c ∈ Nat.toDigits 10 n := by rw [hcs]; exact List.mem_cons_self _ _
      exact this
    have := toDigitsCore_digits (n + 1) n c hmem
    subst hc
    exact absurd this (by decide)
  · intro hc
    have hmem : c ∈ Nat.toDigitsCore 10 (n + 1) n [] := by
      have : c ∈ Nat.toDigits 10 n := by rw [hcs]; exact List.mem_cons_self _ _
      exact this
    have := toDigitsCore_digits (n + 1) n c hmem
    subst hc
    exact absurd this (by decide)

/-- The round trip of `strconv`: `ParseInt` reads the text `FormatInt` prints of
an `int64` back as the same number. -/
theorem ParseInt_FormatInt (v : Int) (hlo : -(2 : Int) ^ 63 ≤ v) (hhi : v < (2 : Int) ^ 63) :
    ParseInt (FormatInt v) = (v, none) := by
  unfold ParseInt
  rw [FormatInt_data]
  by_cases hneg : v < 0
  · have hn : v.natAbs < 2 ^ 64 := by omega
    simp only [hneg, if_true, or_true, ParseUint_toDigits _ hn]
    have h1 : ¬ (v.natAbs > 2 ^ 63) := by omega
    have h2 : -((v.natAbs : Nat) : Int) = v := by omega
    simp only [not_true_eq_false, false_and, if_false, true_and, h1, if_true, h2]
  · obtain ⟨c, cs, hcs, hplus, hminus⟩ := toDigits_head v.toNat
    have hn : v.toNat < 2 ^ 64 := by omega
    have hP := ParseUint_toDigits _ hn
    rw [hcs] at hP
    simp only [hneg, if_false, hcs, hplus, hminus, or_self, hP]
    have h1 : ¬ (v.toNat ≥ 2 ^ 63) := by omega
    have h2 : ((v.toNat : Nat) : Int) = v := by omega
    simp only [not_false_eq_true, true_and, h1, if_false, false_and, h2]

/-- The decimal text of an integer is not empty and holds no single quote. -/
theorem FormatInt_chars (v : Int) :
    (FormatInt v).data ≠ [] ∧ quoteChar ∉ (FormatInt v).data := by
  rw [FormatInt_data]
  have hq : ∀ n : Nat, quoteChar ∉ Nat.toDigits 10 n := by
    intro n hmem
    have := toDigitsCore_digits (n + 1) n quoteChar hmem
    exact absurd this (by decide)
  split_ifs
  · refine ⟨by simp, ?_⟩
    intro hmem
    rcases List.mem_cons.mp hmem with h | h
    · exact absurd h (by decide)
    · exact hq _ h
  · exact ⟨toDigits_ne_nil _, hq _⟩

/-- A failed `ParseUint` loop reports a syntax error, or a range error with the
value `maxUint64`. -/
theorem parseUintLoop_failed (cs : List Char) : ∀ (n : Nat) (e : NumError),
    (parseUintLoop cs n).2 = some e →
      parseUintLoop cs n = (0, some NumError.invalidText) ∨
        parseUintLoop cs n = (maxUint64, some NumError.outOfRange) := by
  induction cs with
  | nil => intro n e h; simp [parseUintLoop] at h
  | cons c cs ih =>
    intro n e h
    simp only [parseUintLoop] at h ⊢
    split_ifs at h ⊢ <;> simp_all

/-- A `ParseUint` loop that succeeds has read ASCII digits only. -/
theorem parseUintLoop_ok_digits (cs : List Char) : ∀ n : Nat,
    (parseUintLoop cs n).2 = none → cs.all Char.isDigit = true := by
  induction cs with
  | nil => intro n _; rfl
  | cons c cs ih =>
    intro n h
    by_cases hd : '0' ≤ c ∧ c ≤ '9'
    · have hc : c.isDigit = true := by
        have h0 : (48 : UInt32) ≤ c.val := hd.1
        have h9 : c.val ≤ (57 : UInt32) := hd.2
        simp [Char.isDigit, h0, h9]
      simp only [List.all_cons, hc, Bool.true_and]
      simp only [parseUintLoop, hd, and_self, if_true] at h
      by_cases h1 : n ≥ maxUint64 / 10 + 1
      · simp [h1] at h
      · simp only [h1, if_false] at h
        split_ifs at h
        exact ih _ h
    · simp [parseUintLoop, hd] at h

/-- A text that `ParseInt` accepts is an optional sign followed by digits. -/
theorem ParseInt_ok_decimal (s : String) (h : (ParseInt s).2 = none) :
    isDecimalInteger s = true := by
  unfold ParseInt at h
  unfold isDecimalInteger
  split at h
  · simp at h
  · rename_i c cs hs
    simp only at h ⊢
    by_cases hsign : c = '+' ∨ c = '-'
    · simp only [hsign, if_true] at h ⊢
      cases hcs : cs with
      | nil => simp [hcs, ParseUint] at h
      | cons d ds =>
        have hU : ParseUint (d :: ds) = parseUintLoop (d :: ds) 0 := rfl
        rw [hcs, hU] at h
        cases hr : (parseUintLoop (d :: ds) 0).2 with
        | none => simpa using parseUintLoop_ok_digits (d :: ds) 0 hr
        | some e =>
          rcases parseUintLoop_failed (d :: ds) 0 e hr with hf | hf
          · rw [hf] at h; simp at h
          · rw [hf] at h
            simp only [maxUint64] at h
            split_ifs at h <;> simp_all
    · simp only [hsign, if_false] at h ⊢
      have hU : ParseUint (c :: cs) = parseUintLoop (c :: cs) 0 := rfl
      rw [hU] at h
      cases hr : (parseUintLoop (c :: cs) 0).2 with
      | none => exact parseUintLoop_ok_digits (c :: cs) 0 hr
      | some e =>
        rcases parseUintLoop_failed (c :: cs) 0 e hr with hf | hf
        · rw [hf] at h; simp at h
        · rw [hf] at h
          simp only [maxUint64] at h
          split_ifs at h <;> simp_all

/-- The decimal text `FormatInt` prints is the one `toString` gives. -/
theorem FormatInt_eq_toString (v : Int) : FormatInt v = toString v := by
  cases v with
  | ofNat n => simp [FormatInt, toString, instToStringInt, instToStringNat]
  | negSucc n =>
    have h : Int.negSucc n < 0 := Int.negSucc_lt_zero n
    simp [FormatInt, h, toString, instToStringInt, instToStringNat, Int.natAbs]

/-! ## Version -/

/-- C5: when the version-lookup query fails with `e`, `Version` returns the
sentinel `-1` together with exactly `e`. -/
theorem Version_query_error {σ : Type} (db : DB σ) (e : Error) (s1 : σ)
    (h : db.driver.query queryVersion db.catalog db.session = (Except.error e, s1)) :
    (Version db).1 = (-1, some e) := by
  simp [Version, DB.Query, h]

/-- C5, on the scripted connection of `TestDBVersionWithError`. -/
theorem Version_query_error_witness :
    (Version (mockDB [Reply.fail (Error.driver "")])).1 = (-1, some (Error.driver "")) :=
  Version_query_error (mockDB [Reply.fail (Error.driver "")]) (Error.driver "") [] rfl

/-- C3: when the version-lookup query succeeds and returns no rows, `Version`
returns `(0, nil)`. -/
theorem Version_no_rows {σ : Type} (db : DB σ) (s1 : σ)
    (h : db.driver.query queryVersion db.catalog db.session = (Except.ok [], s1)) :
    (Version db).1 = (0, none) := by
  simp [Version, DB.Query, h]

/-- C3, on the scripted connection of `TestDBVersionWithoutVersion`. -/
theorem Version_no_rows_witness : (Version (mockDB [Reply.rows []])).1 = (0, none) :=
  Version_no_rows (mockDB [Reply.rows []]) [] rfl

/-- C2, amended: for every `N` with `0 ≤ N < 2^63`, when the version-lookup
query succeeds and its first row holds the decimal text of `N`, `Version`
returns `(N, nil)`. -/
theorem Version_decimal {σ : Type} (db : DB σ) (N : Int) (rest : Rows) (s1 : σ)
    (h0 : 0 ≤ N) (h63 : N < (2 : Int) ^ 63)
    (h : db.driver.query queryVersion db.catalog db.session =
      (Except.ok (Value.text (FormatInt N) :: rest), s1)) :
    (Version db).1 = (N, none) := by
  have hP := ParseInt_FormatInt N (by omega) h63
  simp [Version, DB.Query, h, scanInt, hP]

/-- C2, amended, on the scripted connection of `TestDBVersionWithVersion`. -/
theorem Version_decimal_witness :
    (Version (mockDB [Reply.rows [Value.text (FormatInt 1)]])).1 = (1, none) :=
  Version_decimal (mockDB [Reply.rows [Value.text (FormatInt 1)]]) 1 [] [] (by decide)
    (by decide) rfl

/-- C2 as stated fails at `N = 2^63`: the first row holds the decimal text of
`N`, and `Version` returns `-1` with a range error instead of `(N, nil)`. -/
theorem Version_decimal_counterexample :
    (0 : Int) ≤ 2 ^ 63 ∧ FormatInt (2 ^ 63) = "9223372036854775808" ∧
      (mockDB [Reply.rows [Value.text "9223372036854775808"]]).driver.query queryVersion
          (mockDB [Reply.rows [Value.text "9223372036854775808"]]).catalog
          (mockDB [Reply.rows [Value.text "9223372036854775808"]]).session =
        (Except.ok [Value.text "9223372036854775808"], []) ∧
      (Version (mockDB [Reply.rows [Value.text "9223372036854775808"]])).1 =
        (-1, some (Error.scan (Value.text "9223372036854775808") (some NumError.outOfRange))) ∧
      (Version (mockDB [Reply.rows [Value.text "9223372036854775808"]])).1 ≠ (2 ^ 63, none) := by
  refine ⟨by decide, by decide, rfl, by decide, by decide⟩

/-- C4: when the version-lookup query succeeds and its first row holds a text
that is not an optional sign followed by decimal digits, `Version` returns `-1`
together with the conversion error of the scan. -/
theorem Version_malformed {σ : Type} (db : DB σ) (s : String) (rest : Rows) (s1 : σ)
    (hs : isDecimalInteger s = false)
    (h : db.driver.query queryVersion db.catalog db.session =
      (Except.ok (Value.text s :: rest), s1)) :
    ∃ cause : NumError,
      (Version db).1 = (-1, some (Error.scan (Value.text s) (some cause))) := by
  cases hP : ParseInt s with
  | mk i err =>
    cases err with
    | none =>
      have := ParseInt_ok_decimal s (by rw [hP])
      rw [hs] at this
      exact absurd this (by decide)
    | some cause =>
      exact ⟨cause, by simp [Version, DB.Query, h, scanInt, hP]⟩

/-- C4, on the scripted connection of `TestDBWithMalformattedVersion`. -/
theorem Version_malformed_witness :
    ∃ cause : NumError,
      (Version (mockDB [Reply.rows [Value.text "Malformatted String"]])).1 =
        (-1, some (Error.scan (Value.text "Malformatted String") (some cause))) :=
  Version_malformed (mockDB [Reply.rows [Value.text "Malformatted String"]])
    "Malformatted String" [] [] (by decide) rfl

/-- An error of `Version` always comes with the sentinel `-1`. -/
theorem Version_error_sentinel {σ : Type} (db : DB σ) (h : (Version db).1.2 ≠ none) :
    (Version db).1.1 = -1 := by
  cases hq : db.driver.query queryVersion db.catalog db.session with
  | mk r s1 =>
    cases r with
    | error e => simp [Version, DB.Query, hq]
    | ok rows =>
      cases rows with
      | nil => simp [Version, DB.Query, hq] at h
      | cons v rest =>
        cases hv : scanInt v with
        | error e => simp [Version, DB.Query, hq, hv]
        | ok i => simp [Version, DB.Query, hq, hv] at h

/-- C9, amended: for every database state and query outcome, an error of
`Version` comes with the version `-1`; and `Version` returns either a
non-negative version with a nil error or `-1` with a non-nil error (so `-1`
exactly when it returns an error, and no negative version with a nil error)
exactly when the first row of the version lookup, if any, is not read as a
negative `int`. -/
theorem Version_sentinel {σ : Type} (db : DB σ) :
    ((Version db).1.2 ≠ none → (Version db).1.1 = -1) ∧
      ((∀ (s : String) (rest : Rows) (s1 : σ) (i : Int),
          db.driver.query queryVersion db.catalog db.session =
            (Except.ok (Value.text s :: rest), s1) → ParseInt s = (i, none) → 0 ≤ i) ↔
        (((0 ≤ (Version db).1.1 ∧ (Version db).1.2 = none) ∨
            ((Version db).1.1 = -1 ∧ (Version db).1.2 ≠ none)) ∧
          ((Version db).1.1 = -1 ↔ (Version db).1.2 ≠ none) ∧
          ¬ ((Version db).1.1 < 0 ∧ (Version db).1.2 = none))) := by
  have herr := Version_error_sentinel db
  refine ⟨herr, ⟨fun hsign => ?_, fun hconc => ?_⟩⟩
  · have hmain : (Version db).1.2 = none → 0 ≤ (Version db).1.1 := by
      intro hnone
      cases hq : db.driver.query queryVersion db.catalog db.session with
      | mk r s1 =>
        cases r with
        | error e => simp [Version, DB.Query, hq] at hnone
        | ok rows =>
          cases rows with
          | nil => simp [Version, DB.Query, hq]
          | cons v rest =>
            cases v with
            | null => simp [Version, DB.Query, hq, scanInt] at hnone
            | text s =>
              cases hP : ParseInt s with
              | mk i err =>
                cases err with
                | some cause => simp [Version, DB.Query, hq, scanInt, hP] at hnone
                | none =>
                  have hv : (Version db).1.1 = i := by
                    simp [Version, DB.Query, hq, scanInt, hP]
                  rw [hv]
                  exact hsign s rest s1 i hq hP
    by_cases hnone : (Version db).1.2 = none
    · have h0 := hmain hnone
      refine ⟨Or.inl ⟨h0, hnone⟩, ⟨fun h => ?_, fun h => absurd hnone h⟩, fun h => ?_⟩
      · omega
      · omega
    · have h1 := herr hnone
      exact ⟨Or.inr ⟨h1, hnone⟩, ⟨fun _ => hnone, fun _ => h1⟩, fun h => hnone h.2⟩
  · intro s rest s1 i hq hP
    have hv : (Version db).1 = (i, none) := by
      simp [Version, DB.Query, hq, scanInt, hP]
    rw [hv] at hconc
    by_contra hneg
    exact hconc.2.2 ⟨by simpa using hneg, rfl⟩

/-- C9, amended, on a connection whose comment is `1`. -/
theorem Version_sentinel_witness :
    ((0 ≤ (Version (mockDB [Reply.rows [Value.text "1"]])).1.1 ∧
          (Version (mockDB [Reply.rows [Value.text "1"]])).1.2 = none) ∨
        ((Version (mockDB [Reply.rows [Value.text "1"]])).1.1 = -1 ∧
          (Version (mockDB [Reply.rows [Value.text "1"]])).1.2 ≠ none)) ∧
      ((Version (mockDB [Reply.rows [Value.text "1"]])).1.1 = -1 ↔
        (Version (mockDB [Reply.rows [Value.text "1"]])).1.2 ≠ none) ∧
      ¬ ((Version (mockDB [Reply.rows [Value.text "1"]])).1.1 < 0 ∧
        (Version (mockDB [Reply.rows [Value.text "1"]])).1.2 = none) :=
  (Version_sentinel (mockDB [Reply.rows [Value.text "1"]])).2.mp (by
    intro s rest s1 i h hP
    have h1 : (Except.ok [Value.text "1"], ([] : List Reply)) =
        ((Except.ok (Value.text s :: rest) : Except Error Rows), s1) := h
    simp only [Prod.mk.injEq, Except.ok.injEq, List.cons.injEq, Value.text.injEq] at h1
    rw [← h1.1.1] at hP
    have h2 : ParseInt "1" = (1, none) := by decide
    rw [h2] at hP
    simp only [Prod.mk.injEq] at hP
    omega)

/-- C9 as stated fails when the comment is `-1`: the query succeeds, and
`Version` returns the version `-1` with a nil error. -/
theorem Version_sentinel_counterexample :
    (mockDB [Reply.rows [Value.text "-1"]]).driver.query queryVersion
        (mockDB [Reply.rows [Value.text "-1"]]).catalog
        (mockDB [Reply.rows [Value.text "-1"]]).session =
      (Except.ok [Value.text "-1"], []) ∧
    (Version (mockDB [Reply.rows [Value.text "-1"]])).1 = (-1, none) ∧
    ¬ ((Version (mockDB [Reply.rows [Value.text "-1"]])).1.1 = -1 ↔
        (Version (mockDB [Reply.rows [Value.text "-1"]])).1.2 ≠ none) ∧
    ((Version (mockDB [Reply.rows [Value.text "-1"]])).1.1 < 0 ∧
      (Version (mockDB [Reply.rows [Value.text "-1"]])).1.2 = none) := by
  refine ⟨rfl, by decide, by decide, by decide⟩

/-- C10: `Version` issues exactly one statement, the version-lookup query, and
no command; the catalog (database name and comment) after the call is the one
before it, whatever the outcome. -/
theorem Version_read_only {σ : Type} (db : DB σ) :
    (Version db).2.log = db.log ++ [Stmt.query
      "SELECT description FROM pg_shdescription JOIN pg_database ON objoid = pg_database.oid WHERE datname = current_database()"] ∧
      (Version db).2.catalog = db.catalog := by
  unfold Version
  split
  · rename_i heq
    have h2 := congrArg Prod.snd heq
    simp only [DB.Query] at h2
    subst h2
    exact ⟨rfl, rfl⟩
  · rename_i heq
    have h2 := congrArg Prod.snd heq
    simp only [DB.Query] at h2
    subst h2
    split
    · split <;> exact ⟨rfl, rfl⟩
    · exact ⟨rfl, rfl⟩

/-! ## SetVersion -/

/-- C6: when the name lookup returns the name `d` and the command succeeds,
`SetVersion` returns nil after exactly two statements, the query
`SELECT current_database()` and then the command
`COMMENT ON DATABASE d IS 'V'` with `d` spliced as it is and `V` in decimal;
for `mock_db` and `1` the command is `COMMENT ON DATABASE mock_db IS '1'`. -/
theorem SetVersion_statements {σ : Type} (db : DB σ) (d : String) (V : Int) (rest : Rows)
    (s1 s2 : σ) (cat2 : Catalog)
    (h1 : db.driver.query queryDb db.catalog db.session =
      (Except.ok (Value.text d :: rest), s1))
    (h2 : db.driver.exec ("COMMENT ON DATABASE " ++ d ++ " IS '" ++ FormatInt V ++ "'")
      db.catalog s1 = (none, cat2, s2)) :
    (SetVersion db V).1 = none ∧
      (SetVersion db V).2.log = db.log ++ [Stmt.query "SELECT current_database()",
        Stmt.exec ("COMMENT ON DATABASE " ++ d ++ " IS '" ++ FormatInt V ++ "'")] ∧
      "COMMENT ON DATABASE " ++ "mock_db" ++ " IS '" ++ FormatInt 1 ++ "'" =
        "COMMENT ON DATABASE mock_db IS '1'" := by
  have hq : db.QueryRow queryDb = ({ err := none, rows := Value.text d :: rest },
      { db with session := s1, log := db.log ++ [Stmt.query queryDb] }) := by
    simp [DB.QueryRow, DB.Query, h1]
  have hS : SetVersion db V = (none, DB.mk db.driver cat2 s2
      ((db.log ++ [Stmt.query queryDb]) ++
        [Stmt.exec ("COMMENT ON DATABASE " ++ d ++ " IS '" ++ FormatInt V ++ "'")])) := by
    unfold SetVersion
    rw [hq]
    simp [Row.Scan, scanString, DB.Exec, Sprintf, h2]
  rw [hS]
  refine ⟨rfl, ?_, by decide⟩
  simp [queryDb]

/-- C6, on the scripted connection of `TestDBSetVersion`. -/
theorem SetVersion_statements_witness :
    (SetVersion (mockDB [Reply.rows [Value.text "mock_db"], Reply.done]) 1).1 = none ∧
      (SetVersion (mockDB [Reply.rows [Value.text "mock_db"], Reply.done]) 1).2.log =
        (mockDB [Reply.rows [Value.text "mock_db"], Reply.done]).log ++
          [Stmt.query "SELECT current_database()",
            Stmt.exec ("COMMENT ON DATABASE " ++ "mock_db" ++ " IS '" ++ FormatInt 1 ++ "'")] ∧
      "COMMENT ON DATABASE " ++ "mock_db" ++ " IS '" ++ FormatInt 1 ++ "'" =
        "COMMENT ON DATABASE mock_db IS '1'" :=
  SetVersion_statements (mockDB [Reply.rows [Value.text "mock_db"], Reply.done]) "mock_db" 1
    [] [Reply.done] [] { datname := "mock_db", comment := none } rfl rfl

/-- C7: when the current-database-name lookup of `SetVersion` fails with `e`,
`SetVersion` returns exactly `e`, the only statement issued is the lookup query,
and the catalog (database name and comment) is unchanged. -/
theorem SetVersion_lookup_error {σ : Type} (db : DB σ) (V : Int) (e : Error)
    (h : (db.QueryRow queryDb).1.Scan = Except.error e) :
    (SetVersion db V).1 = some e ∧
      (SetVersion db V).2.log = db.log ++ [Stmt.query "SELECT current_database()"] ∧
      (SetVersion db V).2.catalog = db.catalog := by
  have hlog : (db.QueryRow queryDb).2.log = db.log ++ [Stmt.query queryDb] ∧
      (db.QueryRow queryDb).2.catalog = db.catalog := by
    unfold DB.QueryRow
    split <;>
    · rename_i heq
      have h2 := congrArg Prod.snd heq
      simp only [DB.Query] at h2
      subst h2
      exact ⟨rfl, rfl⟩
  cases hq : db.QueryRow queryDb with
  | mk row db1 =>
    rw [hq] at h hlog
    simp only at h hlog
    have hS : SetVersion db V = (some e, db1) := by
      unfold SetVersion
      rw [hq]
      simp only [h]
    rw [hS]
    exact ⟨rfl, hlog.1, hlog.2⟩

/-- C7, on the scripted connection of `TestDBSetVersionCurrentDbQueryFails`. -/
theorem SetVersion_lookup_error_witness :
    (SetVersion (mockDB [Reply.fail (Error.driver "")]) 1).1 = some (Error.driver "") ∧
      (SetVersion (mockDB [Reply.fail (Error.driver "")]) 1).2.log =
        (mockDB [Reply.fail (Error.driver "")]).log ++ [Stmt.query "SELECT current_database()"] ∧
      (SetVersion (mockDB [Reply.fail (Error.driver "")]) 1).2.catalog =
        (mockDB [Reply.fail (Error.driver "")]).catalog :=
  SetVersion_lookup_error (mockDB [Reply.fail (Error.driver "")]) 1 (Error.driver "") rfl

/-- C8: when the name lookup returns the name `d` and the command fails with
`e`, `SetVersion` returns exactly `e`. -/
theorem SetVersion_command_error {σ : Type} (db : DB σ) (d : String) (V : Int) (e : Error)
    (rest : Rows) (s1 s2 : σ) (cat2 : Catalog)
    (h1 : db.driver.query queryDb db.catalog db.session =
      (Except.ok (Value.text d :: rest), s1))
    (h2 : db.driver.exec ("COMMENT ON DATABASE " ++ d ++ " IS '" ++ FormatInt V ++ "'")
      db.catalog s1 = (some e, cat2, s2)) :
    (SetVersion db V).1 = some e := by
  have hq : db.QueryRow queryDb = ({ err := none, rows := Value.text d :: rest },
      { db with session := s1, log := db.log ++ [Stmt.query queryDb] }) := by
    simp [DB.QueryRow, DB.Query, h1]
  unfold SetVersion
  rw [hq]
  simp [Row.Scan, scanString, DB.Exec, Sprintf, h2]

/-- C8, on the scripted connection of `TestDBSetVersionCommentOnDbFails`. -/
theorem SetVersion_command_error_witness :
    (SetVersion (mockDB [Reply.rows [Value.text "mock_db"], Reply.fail (Error.driver "")]) 1).1 =
      some (Error.driver "") :=
  SetVersion_command_error
    (mockDB [Reply.rows [Value.text "mock_db"], Reply.fail (Error.driver "")]) "mock_db" 1
    (Error.driver "") [] [Reply.fail (Error.driver "")] []
    { datname := "mock_db", comment := none } rfl rfl

/-! ## The round trip on the database `pg` -/

/-- Stripping the leading characters of a concatenation leaves the rest. -/
theorem afterLeading_append (p r : List Char) : afterLeading p (p ++ r) = some r := by
  induction p with
  | nil => cases r <;> rfl
  | cons a p ih => simp [afterLeading, ih]

/-- What `readComment` returns comes from `readName` and the text up to the
first single quote. -/
theorem readComment_eq_some (l : List Char) (n text : String)
    (h : readComment l = some (n, text)) :
    ∃ rest lit, readName l = some (n.data, rest) ∧
      afterLeading " IS '".data rest = some lit ∧
      text = String.mk (lit.takeWhile (fun x => x != quoteChar)) := by
  unfold readComment at h
  split at h
  · simp at h
  · rename_i name rest hrn
    split at h
    · simp at h
    · rename_i lit hlit
      split at h
      · simp at h
      · split_ifs at h
        simp only [Option.some.injEq, Prod.mk.injEq] at h
        refine ⟨rest, lit, ?_, hlit, h.2.symm⟩
        rw [hrn, ← h.1]

/-- When the server reads the name `d` itself at the front of `d` followed by a
blank, what is left is what followed `d`. -/
theorem readName_own (d r rest : List Char)
    (h : readName (d ++ ' ' :: r) = some (d, rest)) : rest = ' ' :: r := by
  cases d with
  | nil =>
    exfalso
    have hn : readName (' ' :: r) = none := by
      simp [readName, dquoteChar, isNameStart, Char.isAlpha, Char.isUpper, Char.isLower]
    simp [hn] at h
  | cons c cs =>
    simp only [List.cons_append, readName] at h
    by_cases hc : c = dquoteChar
    · exfalso
      simp only [hc, if_true] at h
      split at h
      · simp at h
      · simp only [Option.some.injEq, Prod.mk.injEq] at h
        have hmem : dquoteChar ∈
            List.takeWhile (fun x => x != dquoteChar) (cs ++ ' ' :: r) := by
          rw [h.1]; exact List.mem_cons_self _ _
        have := List.mem_takeWhile_imp hmem
        simp at this
    · simp only [hc, if_false] at h
      split_ifs at h
      simp only [Option.some.injEq, Prod.mk.injEq] at h
      have hlen : (List.takeWhile isNamePart (c :: (cs ++ ' ' :: r))).length =
          (c :: cs).length := by
        have := congrArg List.length h.1
        simpa using this
      have happ : List.takeWhile isNamePart (c :: (cs ++ ' ' :: r)) ++
          List.dropWhile isNamePart (c :: (cs ++ ' ' :: r)) = (c :: cs) ++ ' ' :: r := by
        rw [List.takeWhile_append_dropWhile]; rfl
      have := List.append_inj happ hlen
      rw [← h.2]
      exact this.2

/-- Reading the command `SetVersion` builds: when the server reads the spliced
name as that very name, the text it reads is the decimal text. -/
theorem readComment_own (d : String) (t : List Char) (text : String)
    (hq : quoteChar ∉ t)
    (h : readComment (d.data ++ (" IS '".data ++ (t ++ [quoteChar]))) = some (d, text)) :
    text = String.mk t := by
  obtain ⟨rest, lit, hrn, hlit, htext⟩ := readComment_eq_some _ d text h
  have hI : " IS '".data ++ (t ++ [quoteChar]) =
      ' ' :: (['I', 'S', ' ', quoteChar] ++ (t ++ [quoteChar])) := rfl
  rw [hI] at hrn
  have hrest := readName_own d.data _ rest hrn
  rw [hrest, ← hI, afterLeading_append] at hlit
  simp only [Option.some.injEq] at hlit
  have hp : ∀ a ∈ t, (fun x => x != quoteChar) a = true := by
    intro a ha
    have : a ≠ quoteChar := fun hEq => hq (hEq ▸ ha)
    simpa using this
  rw [htext, ← hlit, List.takeWhile_append_of_pos hp]
  simp

/-- A character of a plain name is a name character that folding leaves as it
is, and is not a double quote. -/
theorem plainChar_spec (x : Char) (h : plainChar x = true) :
    isNamePart x = true ∧ x.toLower = x ∧ x ≠ dquoteChar := by
  simp only [plainChar, Bool.or_eq_true, decide_eq_true_eq] at h
  refine ⟨?_, ?_, ?_⟩
  · simp only [isNamePart, Char.isAlphanum, Char.isAlpha, Bool.or_eq_true, decide_eq_true_eq]
    tauto
  · have hnu : ¬ (x.toNat ≥ 65 ∧ x.toNat ≤ 90) := by
      rintro ⟨h1n, h2n⟩
      have hv : x.toNat = x.val.toNat := rfl
      rcases h with ((h | h) | h) | h
      · simp only [Char.isLower, Bool.and_eq_true, decide_eq_true_eq] at h
        have : 97 ≤ x.val.toNat := h.1
        omega
      · simp only [Char.isDigit, Bool.and_eq_true, decide_eq_true_eq] at h
        have : x.val.toNat ≤ 57 := h.2
        omega
      · subst h; revert h2n; decide
      · subst h; revert h1n; decide
    simp only [Char.toLower, hnu, if_false]
  · intro hx
    subst hx
    revert h
    decide

/-- The server reads a plain name, followed by a blank, as that very name. -/
theorem readName_plain (d : String) (r : List Char) (h : isPlainName d = true) :
    readName (d.data ++ ' ' :: r) = some (d.data, ' ' :: r) := by
  unfold isPlainName at h
  cases hd : d.data with
  | nil => simp [hd] at h
  | cons c cs =>
    simp only [hd, Bool.and_eq_true, Bool.or_eq_true, decide_eq_true_eq, List.all_eq_true] at h
    have hc : plainChar c = true := by
      simp only [plainChar, Bool.or_eq_true, decide_eq_true_eq]
      tauto
    have hall : ∀ x ∈ c :: cs, plainChar x = true := by
      intro x hx
      rcases List.mem_cons.mp hx with hx | hx
      · rw [hx]; exact hc
      · exact h.2 x hx
    have hpart : ∀ x ∈ c :: cs, isNamePart x = true := fun x hx => (plainChar_spec x (hall x hx)).1
    have hstart : isNameStart c = true := by
      simp only [isNameStart, Char.isAlpha, Bool.or_eq_true, decide_eq_true_eq]
      tauto
    have hblank : isNamePart ' ' = false := by decide
    have htake : List.takeWhile isNamePart ((c :: cs) ++ ' ' :: r) = c :: cs := by
      rw [List.takeWhile_append_of_pos hpart]
      simp [List.takeWhile, hblank]
    have hdrop : List.dropWhile isNamePart ((c :: cs) ++ ' ' :: r) = ' ' :: r := by
      rw [List.dropWhile_append_of_pos hpart]
      simp [List.dropWhile, hblank]
    have hmap : List.map Char.toLower (c :: cs) = c :: cs := by
      have : ∀ x ∈ c :: cs, Char.toLower x = id x :=
        fun x hx => (plainChar_spec x (hall x hx)).2.1
      rw [List.map_congr_left this, List.map_id]
    have hq : ¬ (c = dquoteChar) := (plainChar_spec c hc).2.2
    have hcons : c :: (cs ++ ' ' :: r) = (c :: cs) ++ ' ' :: r := rfl
    simp only [List.cons_append, readName, hq, if_false, hstart, if_true]
    rw [hcons, htake, hdrop, hmap]

/-- The server reads the command `SetVersion` builds for a plain name as
addressed to that name, with the decimal text as the comment. -/
theorem readComment_plain (d : String) (V : Int) (h : isPlainName d = true) :
    readComment (d.data ++ (" IS '".data ++ ((FormatInt V).data ++ [quoteChar]))) =
      some (d, FormatInt V) := by
  obtain ⟨_, hq⟩ := FormatInt_chars V
  have hI : " IS '".data ++ ((FormatInt V).data ++ [quoteChar]) =
      ' ' :: (['I', 'S', ' ', quoteChar] ++ ((FormatInt V).data ++ [quoteChar])) := rfl
  have hrn := readName_plain d (['I', 'S', ' ', quoteChar] ++ ((FormatInt V).data ++ [quoteChar])) h
  rw [← hI] at hrn
  have hp : ∀ a ∈ (FormatInt V).data, (fun x => x != quoteChar) a = true := by
    intro a ha
    have : a ≠ quoteChar := fun hEq => hq (hEq ▸ ha)
    simpa using this
  have hdw : List.dropWhile (fun x => x != quoteChar) ((FormatInt V).data ++ [quoteChar]) =
      [quoteChar] := by
    rw [List.dropWhile_append_of_pos hp]
    simp [List.dropWhile]
  have htw : List.takeWhile (fun x => x != quoteChar) ((FormatInt V).data ++ [quoteChar]) =
      (FormatInt V).data := by
    rw [List.takeWhile_append_of_pos hp]
    simp [List.takeWhile]
  unfold readComment
  simp only [hrn, afterLeading_append, hdw, htw, true_or, if_true]

/-- A command that succeeds on the server `pg` either is read as addressed to
the connected database, whose comment becomes the text read, or is not, and
then leaves the connected database as it was. -/
theorem pgExec_ok (permits : String → Catalog → Bool) (cmd : String) (cat : Catalog)
    (others : List Catalog) (h : (pgExec permits cmd cat others).1 = none) :
    (∃ l text, afterLeading "COMMENT ON DATABASE ".data cmd.data = some l ∧
        readComment l = some (cat.datname, text) ∧
        (pgExec permits cmd cat others).2.1 =
          { datname := cat.datname, comment := commentOf text }) ∨
      (commandTarget cmd ≠ some cat.datname ∧ (pgExec permits cmd cat others).2.1 = cat) := by
  unfold pgExec at h ⊢
  unfold commandTarget
  by_cases hp : permits cmd cat = true
  · simp only [hp, if_true] at h ⊢
    cases hal : afterLeading "COMMENT ON DATABASE ".data cmd.data with
    | none => right; simp
    | some l =>
      simp only [hal] at h ⊢
      cases hrc : readComment l with
      | none => simp [hrc] at h
      | some nt =>
        obtain ⟨name, text⟩ := nt
        simp only [hrc] at h ⊢
        by_cases hn : name = cat.datname
        · left
          subst hn
          exact ⟨l, text, rfl, hrc, by simp⟩
        · right
          simp only [hn, if_false] at h ⊢
          refine ⟨by simp [hn], ?_⟩
          split_ifs at h ⊢
          rfl
  · simp [hp] at h

/-- The result of `Version` on the server `pg` depends on the connected
database only. -/
theorem Version_pg (permits : String → Catalog → Bool) (cat : Catalog)
    (o1 o2 : List Catalog) (l1 l2 : List Stmt) :
    (Version (DB.mk (pg permits) cat o1 l1)).1 = (Version (DB.mk (pg permits) cat o2 l2)).1 := by
  have hne : ¬ (queryVersion = queryDb) := by decide
  cases hc : cat.comment with
  | none => simp [Version, DB.Query, pg, pgQuery, hne, hc]
  | some c =>
    cases hs : scanInt (Value.text c) <;>
      simp [Version, DB.Query, pg, pgQuery, hne, hc, hs]

/-- On the server `pg`, `SetVersion` issues the command built for the name of
the connected database and returns what the server answers. -/
theorem SetVersion_pg (permits : String → Catalog → Bool) (cat : Catalog)
    (others : List Catalog) (log : List Stmt) (V : Int) :
    SetVersion (DB.mk (pg permits) cat others log) V =
      ((pgExec permits (Sprintf cat.datname V) cat others).1,
        DB.mk (pg permits) (pgExec permits (Sprintf cat.datname V) cat others).2.1
          (pgExec permits (Sprintf cat.datname V) cat others).2.2
          ((log ++ [Stmt.query queryDb]) ++ [Stmt.exec (Sprintf cat.datname V)])) := by
  cases hr : (pgExec permits (Sprintf cat.datname V) cat others).1 <;>
    simp [SetVersion, DB.QueryRow, DB.Query, DB.Exec, pg, pgQuery, Row.Scan, scanString, hr]

/-- The server reads the command `SetVersion` builds for a plain name as
addressed to the database of that name. -/
theorem commandTarget_plain (d : String) (V : Int) (h : isPlainName d = true) :
    commandTarget (Sprintf d V) = some d := by
  have hdata : (Sprintf d V).data = "COMMENT ON DATABASE ".data ++
      (d.data ++ (" IS '".data ++ ((FormatInt V).data ++ [quoteChar]))) := by
    simp only [Sprintf, String.data_append, List.append_assoc]
    rfl
  unfold commandTarget
  rw [hdata, afterLeading_append]
  simp only [readComment_plain d V h, Option.map_some']

/-- On a database with a plain name, `SetVersion` returns nil exactly when the
server permits the command. -/
theorem SetVersion_pg_plain (permits : String → Catalog → Bool) (cat : Catalog)
    (others : List Catalog) (log : List Stmt) (V : Int) (h : isPlainName cat.datname = true) :
    (SetVersion (DB.mk (pg permits) cat others log) V).1 = none ↔
      permits (Sprintf cat.datname V) cat = true := by
  have hdata : (Sprintf cat.datname V).data = "COMMENT ON DATABASE ".data ++
      (cat.datname.data ++ (" IS '".data ++ ((FormatInt V).data ++ [quoteChar]))) := by
    simp only [Sprintf, String.data_append, List.append_assoc]
    rfl
  rw [SetVersion_pg]
  simp only
  unfold pgExec
  by_cases hp : permits (Sprintf cat.datname V) cat = true
  · simp only [hp, if_true]
    rw [hdata, afterLeading_append]
    simp only [readComment_plain cat.datname V h, if_true]
  · simp [hp]

/-- C1, amended: on a server that holds, for each database, its name and its
single comment, for every `int` `V`, if `SetVersion(conn, V)` returns no error
and the server reads the unquoted name in the command as the name of the
connected database, then a following `Version(conn)` returns `(V, nil)`; when
the server reads another name, `Version(conn)` returns what it returned before
the call. -/
theorem SetVersion_Version_round_trip (permits : String → Catalog → Bool) (cat : Catalog)
    (others : List Catalog) (log : List Stmt) (V : Int)
    (hlo : -(2 : Int) ^ 63 ≤ V) (hhi : V < (2 : Int) ^ 63)
    (hset : (SetVersion (DB.mk (pg permits) cat others log) V).1 = none) :
    (commandTarget (Sprintf cat.datname V) = some cat.datname →
        (Version (SetVersion (DB.mk (pg permits) cat others log) V).2).1 = (V, none)) ∧
      (commandTarget (Sprintf cat.datname V) ≠ some cat.datname →
        (Version (SetVersion (DB.mk (pg permits) cat others log) V).2).1 =
          (Version (DB.mk (pg permits) cat others log)).1) := by
  rw [SetVersion_pg] at hset ⊢
  simp only at hset ⊢
  obtain ⟨hne, hq⟩ := FormatInt_chars V
  have hdata : (Sprintf cat.datname V).data = "COMMENT ON DATABASE ".data ++
      (cat.datname.data ++ (" IS '".data ++ ((FormatInt V).data ++ [quoteChar]))) := by
    simp only [Sprintf, String.data_append, List.append_assoc]
    rfl
  rcases pgExec_ok permits _ cat others hset with ⟨l, text, hl, hrc, hcat⟩ | ⟨hother, hcat⟩
  · have htarget : commandTarget (Sprintf cat.datname V) = some cat.datname := by
      simp [commandTarget, hl, hrc]
    refine ⟨fun _ => ?_, fun h => absurd htarget h⟩
    rw [hdata, afterLeading_append] at hl
    simp only [Option.some.injEq] at hl
    rw [← hl] at hrc
    have htext := readComment_own cat.datname (FormatInt V).data text hq hrc
    have htext2 : text = FormatInt V := htext
    have hcomment : commentOf (FormatInt V) = some (FormatInt V) := by
      have : FormatInt V ≠ "" := fun h0 => hne (by rw [h0])
      simp [commentOf, this]
    rw [hcat, htext2, hcomment]
    have hnq : ¬ (queryVersion = queryDb) := by decide
    have hP := ParseInt_FormatInt V hlo hhi
    simp [Version, DB.Query, pg, pgQuery, hnq, scanInt, hP]
  · refine ⟨fun h => absurd h hother, fun _ => ?_⟩
    simp only [hcat]
    exact Version_pg permits cat _ _ _ _

/-- C1, amended, on the database `mock_db` without a comment, for the version `1`. -/
theorem SetVersion_Version_round_trip_witness :
    (Version (SetVersion
      (DB.mk (pg permitsAll) { datname := "mock_db", comment := none } [] []) 1).2).1 =
      (1, none) :=
  (SetVersion_Version_round_trip permitsAll { datname := "mock_db", comment := none } [] [] 1
    (by decide) (by decide) (by decide)).1 (by decide)

/-- C1 as stated fails on the database `MyDB` with the comment `3`, in a cluster
that also has `mydb`: the server folds the unquoted name, `SetVersion(conn, 1)`
returns nil after writing the comment of `mydb`, and the following
`Version(conn)` returns `(3, nil)`. -/
theorem SetVersion_Version_round_trip_counterexample :
    (SetVersion foldedDB 1).1 = none ∧
      (SetVersion foldedDB 1).2.log = [Stmt.query "SELECT current_database()",
        Stmt.exec "COMMENT ON DATABASE MyDB IS '1'"] ∧
      (SetVersion foldedDB 1).2.catalog = { datname := "MyDB", comment := some "3" } ∧
      (SetVersion foldedDB 1).2.session = [{ datname := "mydb", comment := some "1" }] ∧
      (Version (SetVersion foldedDB 1).2).1 = (3, none) ∧
      (Version (SetVersion foldedDB 1).2).1 ≠ (1, none) := by
  refine ⟨by decide, by decide, by decide, by decide, by decide, by decide⟩

end PsqlVersioning
